import Mathlib

/-!
Verification of the Squeeze audio-engine binding.

The Python package under `src/python/squeeze` is a thin ctypes binding over a
native engine.  Pure-Python control flow (clock/engine teardown guards,
`Transport.seek` argument validation, `Node.__rshift__` port matching,
`Chain.__getitem__`, the `Send` level cache) is embedded directly from the
source.  The native core (node graph, event scheduler, performance monitor,
clock creation) is not part of the repository; those definitions are modelled
from the spec and are marked as such in their doc comments.
-/

namespace Squeeze

/-! ## Data model (from `types.py`) -/

/-- Port direction (`Direction` enum in `types.py`). -/
inductive Direction
  | input
  | output
deriving DecidableEq, Repr

/-- Port signal type (`SignalType` enum in `types.py`). -/
inductive SignalType
  | audio
  | midi
deriving DecidableEq, Repr

/-- A connection endpoint on a node (`Port` dataclass in `types.py`). -/
structure Port where
  name : String
  direction : Direction
  signalType : SignalType
  channels : Nat
deriving DecidableEq, Repr

/-- `Port.is_audio` in `types.py`. -/
def Port.isAudio (p : Port) : Bool := p.signalType == SignalType.audio

/-- `Port.is_midi` in `types.py`. -/
def Port.isMidi (p : Port) : Bool := p.signalType == SignalType.midi

/-- `Port.is_input` in `types.py`. -/
def Port.isInput (p : Port) : Bool := p.direction == Direction.input

/-- `Port.is_output` in `types.py`. -/
def Port.isOutput (p : Port) : Bool := p.direction == Direction.output

/-- An active connection between two ports (`Connection` dataclass in `types.py`). -/
structure Conn where
  id : Nat
  srcNode : Nat
  srcPort : String
  dstNode : Nat
  dstPort : String
deriving DecidableEq, Repr

/-- Modelled from the spec: a graph node owned by the NodeGraph — an integer
handle plus its list of ports (spec section 3, "Node"). -/
structure GNode where
  id : Nat
  ports : List Port
deriving DecidableEq, Repr

/-- Modelled from the spec: the NodeGraph state — nodes, directed port-to-port
connections, and the next connection id to assign (spec sections 3 and 4.1).
The native implementation is absent from the repository; only its FFI clients
are visible. -/
structure NodeGraph where
  nodes : List GNode
  conns : List Conn
  nextConnId : Nat
deriving DecidableEq, Repr

/-- The directed node-to-node edges induced by the connection list. -/
def NodeGraph.edges (g : NodeGraph) : List (Nat × Nat) :=
  g.conns.map (fun c => (c.srcNode, c.dstNode))

/-! ## Paths and acyclicity -/

/-- A nonempty directed path through an edge list. -/
inductive Path (E : List (Nat × Nat)) : Nat → Nat → Prop
  | single {a b : Nat} : (a, b) ∈ E → Path E a b
  | cons {a b c : Nat} : (a, b) ∈ E → Path E b c → Path E a c

/-- The edge list is acyclic: no node lies on a nonempty directed cycle. -/
def Acyclic (E : List (Nat × Nat)) : Prop := ∀ n : Nat, ¬ Path E n n

theorem Path.trans {E : List (Nat × Nat)} {a b c : Nat}
    (h₁ : Path E a b) (h₂ : Path E b c) : Path E a c := by
  induction h₁ with
  | single hm => exact Path.cons hm h₂
  | cons hm _ ih => exact Path.cons hm (ih h₂)

theorem Path.weaken {E : List (Nat × Nat)} {e : Nat × Nat} {a b : Nat}
    (h : Path E a b) : Path (e :: E) a b := by
  induction h with
  | single hm => exact Path.single (List.mem_cons_of_mem _ hm)
  | cons hm _ ih => exact Path.cons (List.mem_cons_of_mem _ hm) ih

/-- Decomposition of a path in a graph extended with edge `(s, d)`: either the
path avoids the new edge, or it can be split at the new edge. -/
theorem path_cons_decomp {E : List (Nat × Nat)} {s d a b : Nat}
    (h : Path ((s, d) :: E) a b) :
    Path E a b ∨ ((a = s ∨ Path E a s) ∧ (d = b ∨ Path E d b)) := by
  induction h with
  | @single a b hm =>
    rcases List.mem_cons.mp hm with heq | hmem
    · have h1 : a = s := congrArg Prod.fst heq
      have h2 : b = d := congrArg Prod.snd heq
      exact Or.inr ⟨Or.inl h1, Or.inl h2.symm⟩
    · exact Or.inl (Path.single hmem)
  | @cons a x b hm _ ih =>
    rcases List.mem_cons.mp hm with heq | hmem
    · have h1 : a = s := congrArg Prod.fst heq
      have h2 : x = d := congrArg Prod.snd heq
      refine Or.inr ⟨Or.inl h1, ?_⟩
      rcases ih with hxb | ⟨_, hdb⟩
      · exact Or.inr (h2 ▸ hxb)
      · exact hdb
    · rcases ih with hxb | ⟨hxs, hdb⟩
      · exact Or.inl (Path.cons hmem hxb)
      · refine Or.inr ⟨?_, hdb⟩
        rcases hxs with hxseq | hps
        · exact Or.inr (Path.single (hxseq ▸ hmem))
        · exact Or.inr (Path.cons hmem hps)

/-- Adding edge `(s, d)` to an acyclic graph keeps it acyclic provided `s` is
not reachable from `d` (and `s ≠ d`). -/
theorem acyclic_insert {E : List (Nat × Nat)} {s d : Nat}
    (hE : Acyclic E) (hns : ¬ (d = s ∨ Path E d s)) :
    Acyclic ((s, d) :: E) := by
  intro n hn
  rcases path_cons_decomp hn with hcyc | ⟨hns', hdn⟩
  · exact hE n hcyc
  · apply hns
    rcases hdn with hdn | hdn
    · rcases hns' with hns' | hns'
      · exact Or.inl (hdn.trans hns')
      · exact Or.inr (hdn ▸ hns')
    · rcases hns' with hns' | hns'
      · exact Or.inr (hns' ▸ hdn)
      · exact Or.inr (hdn.trans hns')

/-- A path presented as the list of intermediate nodes strictly between the
endpoints. -/
def isPath (E : List (Nat × Nat)) : Nat → List Nat → Nat → Prop
  | a, [], b => (a, b) ∈ E
  | a, x :: l, b => (a, x) ∈ E ∧ isPath E x l b

theorem isPath_nil {E : List (Nat × Nat)} {a b : Nat} :
    isPath E a [] b ↔ (a, b) ∈ E := Iff.rfl

theorem isPath_cons {E : List (Nat × Nat)} {a x b : Nat} {l : List Nat} :
    isPath E a (x :: l) b ↔ (a, x) ∈ E ∧ isPath E x l b := Iff.rfl

theorem path_iff_isPath {E : List (Nat × Nat)} {a b : Nat} :
    Path E a b ↔ ∃ l, isPath E a l b := by
  constructor
  · intro h
    induction h with
    | @single a b hm => exact ⟨[], hm⟩
    | @cons a x b hm _ ih =>
      obtain ⟨l, hl⟩ := ih
      exact ⟨x :: l, hm, hl⟩
  · rintro ⟨l, hl⟩
    induction l generalizing a with
    | nil => exact Path.single hl
    | cons x t ih => exact Path.cons hl.1 (ih hl.2)

/-- Dropping a prefix of a path up to an occurrence of `x` leaves a path
from `x`. -/
theorem isPath_drop (E : List (Nat × Nat)) :
    ∀ (l₁ : List Nat) (a x : Nat) (l₂ : List Nat) (b : Nat),
      isPath E a (l₁ ++ x :: l₂) b → isPath E x l₂ b := by
  intro l₁
  induction l₁ with
  | nil => intro a x l₂ b h; exact h.2
  | cons y t ih => intro a x l₂ b h; exact ih y x l₂ b h.2

/-- Every node visited before the final endpoint has an outgoing edge. -/
theorem isPath_mem_fst (E : List (Nat × Nat)) :
    ∀ (l : List Nat) (a b : Nat), isPath E a l b →
      ∀ x ∈ a :: l, x ∈ E.map Prod.fst := by
  intro l
  induction l with
  | nil =>
    intro a b h x hx
    rcases List.mem_singleton.mp hx with rfl
    exact List.mem_map.mpr ⟨(x, b), h, rfl⟩
  | cons y t ih =>
    intro a b h x hx
    rcases List.mem_cons.mp hx with rfl | hx
    · exact List.mem_map.mpr ⟨(x, y), h.1, rfl⟩
    · exact ih y b h.2 x hx

/-- Any path can be pruned to a duplicate-free path between the same endpoints
that is no longer and uses a subset of the intermediate nodes. -/
theorem isPath_dedup (E : List (Nat × Nat)) :
    ∀ (n : Nat) (a : Nat) (l : List Nat) (b : Nat), l.length ≤ n → isPath E a l b →
      ∃ l', l'.length ≤ l.length ∧ l' ⊆ l ∧ (a :: l').Nodup ∧ isPath E a l' b := by
  intro n
  induction n with
  | zero =>
    intro a l b hlen hp
    have : l = [] := List.length_eq_zero.mp (Nat.le_zero.mp hlen)
    subst this
    exact ⟨[], le_rfl, fun x hx => hx, List.nodup_singleton a, hp⟩
  | succ n ih =>
    intro a l b hlen hp
    by_cases ha : a ∈ l
    · obtain ⟨l₁, l₂, rfl⟩ := List.append_of_mem ha
      have hp₂ : isPath E a l₂ b := isPath_drop E l₁ a a l₂ b hp
      have hlen₂ : l₂.length ≤ n := by
        simp only [List.length_append, List.length_cons] at hlen
        omega
      obtain ⟨l', h1, h2, h3, h4⟩ := ih a l₂ b hlen₂ hp₂
      refine ⟨l', ?_, ?_, h3, h4⟩
      · simp only [List.length_append, List.length_cons]
        omega
      · intro x hx
        exact List.mem_append.mpr (Or.inr (List.mem_cons_of_mem _ (h2 hx)))
    · cases l with
      | nil => exact ⟨[], le_rfl, fun x hx => hx, List.nodup_singleton a, hp⟩
      | cons x t =>
        obtain ⟨hax, hpt⟩ := hp
        have hlent : t.length ≤ n := by
          simp only [List.length_cons] at hlen
          omega
        obtain ⟨t', h1, h2, h3, h4⟩ := ih x t b hlent hpt
        have hsub : x :: t' ⊆ x :: t := List.cons_subset_cons x h2
        refine ⟨x :: t', ?_, hsub, ?_, ⟨hax, h4⟩⟩
        · simp only [List.length_cons]
          omega
        · refine List.nodup_cons.mpr ⟨fun hmem => ha (hsub hmem), h3⟩

/-- A duplicate-free path's step count is bounded by the number of edges. -/
theorem nodup_path_length {E : List (Nat × Nat)} {a b : Nat} {l : List Nat}
    (hp : isPath E a l b) (hnd : (a :: l).Nodup) : l.length + 1 ≤ E.length := by
  have hsub : (a :: l) ⊆ E.map Prod.fst := fun x hx => isPath_mem_fst E l a b hp x hx
  have hle := (hnd.subperm hsub).length_le
  simpa using hle

/-- Bounded-depth reachability: `reachesN n E a b` holds when `b` can be
reached from `a` in at most `n` edge steps (zero steps meaning `a = b`). -/
def reachesN : Nat → List (Nat × Nat) → Nat → Nat → Bool
  | 0, _, a, b => a == b
  | n + 1, E, a, b => a == b || E.any (fun e => e.1 == a && reachesN n E e.2 b)

theorem reachesN_refl (n : Nat) (E : List (Nat × Nat)) (a : Nat) :
    reachesN n E a a = true := by
  cases n <;> simp [reachesN]

theorem reachesN_complete (E : List (Nat × Nat)) :
    ∀ (l : List Nat) (n a b : Nat), isPath E a l b → l.length + 1 ≤ n →
      reachesN n E a b = true := by
  intro l
  induction l with
  | nil =>
    intro n a b hp hn
    match n, hn with
    | n + 1, _ =>
      simp only [reachesN, Bool.or_eq_true, List.any_eq_true, Bool.and_eq_true,
        beq_iff_eq]
      exact Or.inr ⟨(a, b), hp, rfl, reachesN_refl n E b⟩
  | cons x t ih =>
    intro n a b hp hn
    match n, hn with
    | m + 1, hn₂ =>
      simp only [reachesN, Bool.or_eq_true, List.any_eq_true, Bool.and_eq_true,
        beq_iff_eq]
      have hm : t.length + 1 ≤ m := by
        simp only [List.length_cons] at hn₂
        omega
      exact Or.inr ⟨(a, x), hp.1, rfl, ih m x b hp.2 hm⟩

theorem reachesN_sound (E : List (Nat × Nat)) :
    ∀ (n a b : Nat), reachesN n E a b = true → a = b ∨ Path E a b := by
  intro n
  induction n with
  | zero =>
    intro a b h
    simp only [reachesN, beq_iff_eq] at h
    exact Or.inl h
  | succ n ih =>
    intro a b h
    simp only [reachesN, Bool.or_eq_true, List.any_eq_true, Bool.and_eq_true,
      beq_iff_eq] at h
    rcases h with h | ⟨⟨e1, e2⟩, heE, he1, hr⟩
    · exact Or.inl h
    · subst he1
      rcases ih e2 b hr with rfl | hp
      · exact Or.inr (Path.single heE)
      · exact Or.inr (Path.cons heE hp)

/-- Modelled from the spec: the reachability check used by `connect`'s cycle
detection ("cycle detection runs a reachability check from dst to src before
committing", spec section 4.1). -/
def reaches (E : List (Nat × Nat)) (a b : Nat) : Bool :=
  reachesN E.length E a b

theorem reaches_complete {E : List (Nat × Nat)} {a b : Nat}
    (h : a = b ∨ Path E a b) : reaches E a b = true := by
  rcases h with rfl | hp
  · exact reachesN_refl _ _ _
  · obtain ⟨l, hl⟩ := path_iff_isPath.mp hp
    obtain ⟨l', _, _, hnd, hp'⟩ := isPath_dedup E l.length a l b le_rfl hl
    exact reachesN_complete E l' E.length a b hp' (nodup_path_length hp' hnd)

theorem reaches_sound {E : List (Nat × Nat)} {a b : Nat}
    (h : reaches E a b = true) : a = b ∨ Path E a b :=
  reachesN_sound E E.length a b h

/-! ## NodeGraph.connect (spec section 4.1; native core absent from the repo) -/

/-- Error taxonomy of spec section 7 (the kinds `connect` can surface). -/
inductive SqError
  | invalidNode
  | invalidPort
  | typeMismatch
  | cycleDetected
  | notFound
deriving DecidableEq, Repr

/-- Node lookup by integer handle. -/
def NodeGraph.findNode (g : NodeGraph) (h : Nat) : Option GNode :=
  g.nodes.find? (fun n => n.id == h)

/-- Port lookup by name within a node. -/
def GNode.findPort (n : GNode) (name : String) : Option Port :=
  n.ports.find? (fun p => p.name == name)

/-- Modelled from the spec: `connect(srcNode, srcPort, dstNode, dstPort)` of
the NodeGraph (spec section 4.1) — fails with `InvalidNode` if a handle does
not exist, `InvalidPort` if a port name does not exist on its node,
`TypeMismatch` if the signal types differ, and `CycleDetected` if adding the
edge would close a cycle (detected by a reachability check from dst to src
before committing); on failure the graph is returned unchanged. -/
def NodeGraph.connect (g : NodeGraph) (src : Nat) (srcPort : String)
    (dst : Nat) (dstPort : String) : NodeGraph × Except SqError Nat :=
  match g.findNode src, g.findNode dst with
  | none, _ => (g, .error .invalidNode)
  | _, none => (g, .error .invalidNode)
  | some ns, some nd =>
    match ns.findPort srcPort, nd.findPort dstPort with
    | none, _ => (g, .error .invalidPort)
    | _, none => (g, .error .invalidPort)
    | some ps, some pd =>
      if ps.signalType ≠ pd.signalType then (g, .error .typeMismatch)
      else if reaches g.edges dst src then (g, .error .cycleDetected)
      else ({ g with
                conns := ⟨g.nextConnId, src, srcPort, dst, dstPort⟩ :: g.conns,
                nextConnId := g.nextConnId + 1 },
            .ok g.nextConnId)

/-- One `connect` call's arguments, for replaying call sequences. -/
structure ConnectArgs where
  src : Nat
  srcPort : String
  dst : Nat
  dstPort : String
deriving DecidableEq, Repr

/-- Replay a sequence of `connect` calls, keeping the graph each call returns
(unchanged on failure). -/
def NodeGraph.applyConnects (g : NodeGraph) : List ConnectArgs → NodeGraph
  | [] => g
  | c :: cs => ((g.connect c.src c.srcPort c.dst c.dstPort).1).applyConnects cs

theorem connect_edges_ok {g : NodeGraph} {src dst : Nat} {srcPort dstPort : String}
    {g' : NodeGraph} {cid : Nat}
    (h : g.connect src srcPort dst dstPort = (g', .ok cid)) :
    g'.edges = (src, dst) :: g.edges := by
  unfold NodeGraph.connect at h
  split at h
  · exact absurd (congrArg Prod.snd h) (by simp)
  · exact absurd (congrArg Prod.snd h) (by simp)
  · split at h
    · exact absurd (congrArg Prod.snd h) (by simp)
    · exact absurd (congrArg Prod.snd h) (by simp)
    · split at h
      · exact absurd (congrArg Prod.snd h) (by simp)
      · split at h
        · exact absurd (congrArg Prod.snd h) (by simp)
        · have hg : g' = { g with
              conns := ⟨g.nextConnId, src, srcPort, dst, dstPort⟩ :: g.conns,
              nextConnId := g.nextConnId + 1 } := (congrArg Prod.fst h).symm
          subst hg
          simp [NodeGraph.edges]

theorem connect_not_reaches_of_ok {g : NodeGraph} {src dst : Nat}
    {srcPort dstPort : String} {g' : NodeGraph} {cid : Nat}
    (h : g.connect src srcPort dst dstPort = (g', .ok cid)) :
    reaches g.edges dst src = false := by
  unfold NodeGraph.connect at h
  split at h
  · exact absurd (congrArg Prod.snd h) (by simp)
  · exact absurd (congrArg Prod.snd h) (by simp)
  · split at h
    · exact absurd (congrArg Prod.snd h) (by simp)
    · exact absurd (congrArg Prod.snd h) (by simp)
    · split at h
      · exact absurd (congrArg Prod.snd h) (by simp)
      · split at h
        · exact absurd (congrArg Prod.snd h) (by simp)
        · rename_i hreach
          exact Bool.not_eq_true _ ▸ hreach

theorem connect_error_unchanged {g g' : NodeGraph} {src dst : Nat}
    {srcPort dstPort : String} {e : SqError}
    (h : g.connect src srcPort dst dstPort = (g', .error e)) : g' = g := by
  unfold NodeGraph.connect at h
  split at h
  · exact (congrArg Prod.fst h).symm
  · exact (congrArg Prod.fst h).symm
  · split at h
    · exact (congrArg Prod.fst h).symm
    · exact (congrArg Prod.fst h).symm
    · split at h
      · exact (congrArg Prod.fst h).symm
      · split at h
        · exact (congrArg Prod.fst h).symm
        · exact absurd (congrArg Prod.snd h) (by simp)

/-- A single successful `connect` preserves acyclicity. -/
theorem connect_preserves_acyclic {g : NodeGraph} {src dst : Nat}
    {srcPort dstPort : String} (hg : Acyclic g.edges) :
    Acyclic (g.connect src srcPort dst dstPort).1.edges := by
  rcases hres : (g.connect src srcPort dst dstPort) with ⟨g', r⟩
  rcases r with e | cid
  · have hg' : g' = g := connect_error_unchanged hres
    exact hg'.symm ▸ hg
  · have hedges := connect_edges_ok hres
    have hnr := connect_not_reaches_of_ok hres
    have hnot : ¬ (dst = src ∨ Path g.edges dst src) := by
      intro hcon
      rw [reaches_complete hcon] at hnr
      exact Bool.true_eq_false ▸ hnr
    simpa [hedges] using acyclic_insert hg hnot

/-- Acyclicity is preserved along any sequence of `connect` calls. -/
theorem applyConnects_acyclic (g : NodeGraph) (hg : Acyclic g.edges) :
    ∀ cs : List ConnectArgs, Acyclic (g.applyConnects cs).edges := by
  intro cs
  induction cs generalizing g with
  | nil => exact hg
  | cons c cs ih => exact ih _ (connect_preserves_acyclic hg)

/-- A `connect` call on valid, type-compatible ports that would close a cycle
fails with `CycleDetected` and returns the graph unchanged. -/
theorem connect_cycle_rejected {g : NodeGraph} {src dst : Nat}
    {srcPort dstPort : String} {ns nd : GNode} {ps pd : Port}
    (hg : Acyclic g.edges)
    (hns : g.findNode src = some ns) (hnd : g.findNode dst = some nd)
    (hps : ns.findPort srcPort = some ps) (hpd : nd.findPort dstPort = some pd)
    (hty : ps.signalType = pd.signalType)
    (hcyc : ¬ Acyclic ((src, dst) :: g.edges)) :
    g.connect src srcPort dst dstPort = (g, .error .cycleDetected) := by
  have hreach : reaches g.edges dst src = true := by
    by_contra hr
    apply hcyc
    apply acyclic_insert hg
    intro hor
    exact hr (reaches_complete hor)
  simp [NodeGraph.connect, hns, hnd, hps, hpd, hty, hreach]

/-- Claim C1: for every sequence of `connect` calls on an acyclic node graph,
the directed connection graph is acyclic after each call; a call made through
valid, type-compatible ports that would close a cycle fails with
`CycleDetected`; and every failing call leaves the graph exactly as it was
before the call, so the connections observable afterwards equal those before
the failed call (no partial mutation). -/
theorem connect_acyclic_invariant (g : NodeGraph) (hg : Acyclic g.edges) :
    (∀ cs : List ConnectArgs, Acyclic (g.applyConnects cs).edges) ∧
    (∀ (src : Nat) (srcPort : String) (dst : Nat) (dstPort : String)
        (g' : NodeGraph) (e : SqError),
        g.connect src srcPort dst dstPort = (g', .error e) →
        g' = g ∧ g'.conns = g.conns) ∧
    (∀ (src : Nat) (srcPort : String) (dst : Nat) (dstPort : String)
        (ns nd : GNode) (ps pd : Port),
        g.findNode src = some ns → g.findNode dst = some nd →
        ns.findPort srcPort = some ps → nd.findPort dstPort = some pd →
        ps.signalType = pd.signalType →
        ¬ Acyclic ((src, dst) :: g.edges) →
        g.connect src srcPort dst dstPort = (g, .error .cycleDetected)) := by
  refine ⟨applyConnects_acyclic g hg, ?_, ?_⟩
  · intro src srcPort dst dstPort g' e h
    have hg' : g' = g := connect_error_unchanged h
    exact ⟨hg', by rw [hg']⟩
  · intro src srcPort dst dstPort ns nd ps pd hns hnd hps hpd hty hcyc
    exact connect_cycle_rejected hg hns hnd hps hpd hty hcyc

/-- A two-node demonstration graph: node 0 with an audio output port, node 1
with an audio input port, no connections yet. -/
def demoGraph : NodeGraph :=
  { nodes := [⟨0, [⟨"out", .output, .audio, 2⟩]⟩, ⟨1, [⟨"in", .input, .audio, 2⟩]⟩],
    conns := [],
    nextConnId := 0 }

theorem demoGraph_acyclic : Acyclic demoGraph.edges := by
  intro n hp
  cases hp with
  | single hm => simp [demoGraph, NodeGraph.edges] at hm
  | cons hm _ => simp [demoGraph, NodeGraph.edges] at hm

/-- Witness for claim C1 at a concrete graph and call sequence. -/
theorem connect_acyclic_invariant_witness :
    Acyclic (demoGraph.applyConnects
      [⟨0, "out", 1, "in"⟩, ⟨1, "in", 0, "out"⟩]).edges :=
  (connect_acyclic_invariant demoGraph demoGraph_acyclic).1
    [⟨0, "out", 1, "in"⟩, ⟨1, "in", 0, "out"⟩]

/-! ## Clock and engine lifecycle (`clock.py`, `squeeze.py`) -/

/-- Python exception kinds raised by the binding layer. -/
inductive PyExc
  | valueError
  | indexError
  | keyError
  | squeezeError
deriving DecidableEq, Repr

/-- Modelled from the spec: the native clock handle created by
`sq_clock_create`, holding the configured beat resolution and lookahead
latency (spec section 4.4). The native implementation is absent from the
repository. -/
structure ClockHandle where
  resolution : ℚ
  latencyMs : ℚ
deriving DecidableEq, Repr

/-- Modelled from the spec: `createClock` — `resolution_beats` must be > 0 and
`lookahead_ms` must be ≥ 0; invalid values fail at creation, returning a null
handle through the FFI (spec section 4.4). -/
def sq_clock_create (resolution latencyMs : ℚ) : Option ClockHandle :=
  if resolution ≤ 0 ∨ latencyMs < 0 then none else some ⟨resolution, latencyMs⟩

/-- Modelled from the spec: the native resolution getter reports the
configured beat interval stored in the handle. -/
def sq_clock_get_resolution (h : ClockHandle) : ℚ := h.resolution

/-- Modelled from the spec: the native latency getter reports the configured
lookahead in milliseconds stored in the handle. -/
def sq_clock_get_latency (h : ClockHandle) : ℚ := h.latencyMs

/-- The Python `Clock` object's state: its `_ptr` field (`clock.py`). -/
structure Clock where
  ptr : Option ClockHandle
deriving DecidableEq, Repr

/-- `Clock.__init__` (`clock.py` lines 19-35): calls `sq_clock_create` and
raises `ValueError` when it returns a null pointer. -/
def Clock.init (resolution latencyMs : ℚ) : Except PyExc Clock :=
  match sq_clock_create resolution latencyMs with
  | none => .error .valueError
  | some h => .ok ⟨some h⟩

/-- `Clock.resolution` (`clock.py` lines 37-42): returns 0.0 without touching
the native library when the handle is gone. The Boolean records whether a
native call was made. -/
def Clock.resolutionRead (c : Clock) : ℚ × Bool :=
  match c.ptr with
  | none => (0, false)
  | some h => (sq_clock_get_resolution h, true)

/-- `Clock.latency_ms` (`clock.py` lines 44-49): returns 0.0 without touching
the native library when the handle is gone. The Boolean records whether a
native call was made. -/
def Clock.latencyRead (c : Clock) : ℚ × Bool :=
  match c.ptr with
  | none => (0, false)
  | some h => (sq_clock_get_latency h, true)

/-- `Clock.destroy` (`clock.py` lines 51-55): calls `sq_clock_destroy` only
when `_ptr` is still set, then nulls it. The returned number counts native
destroy calls made by this invocation. -/
def Clock.destroy (c : Clock) : Clock × Nat :=
  match c.ptr with
  | some _ => ({ ptr := none }, 1)
  | none => (c, 0)

/-- The Python `Squeeze` engine object's state: its `_ptr` field
(`squeeze.py`). -/
structure SqueezeEngine where
  ptr : Option Nat
deriving DecidableEq, Repr

/-- `Squeeze.close` (`squeeze.py` lines 66-70): calls `sq_engine_destroy` only
when `_ptr` is still set, then nulls it. The returned number counts native
destroy calls made by this invocation. -/
def SqueezeEngine.close (s : SqueezeEngine) : SqueezeEngine × Nat :=
  match s.ptr with
  | some _ => ({ ptr := none }, 1)
  | none => (s, 0)

/-- Claim C2: for every clock handle and engine handle, calling the teardown
operation (`Clock.destroy`, `Squeeze.close`) a second time after it has
already succeeded is a no-op that never crashes: the first call on a live
handle performs exactly one native destroy, the second call performs none and
leaves all state unchanged. -/
theorem teardown_idempotent (c : Clock) (s : SqueezeEngine)
    (hc : c.ptr.isSome = true) (hs : s.ptr.isSome = true) :
    (Clock.destroy c).2 = 1 ∧
    Clock.destroy (Clock.destroy c).1 = ((Clock.destroy c).1, 0) ∧
    (SqueezeEngine.close s).2 = 1 ∧
    SqueezeEngine.close (SqueezeEngine.close s).1 = ((SqueezeEngine.close s).1, 0) := by
  rcases c with ⟨_ | h⟩
  · simp at hc
  · rcases s with ⟨_ | p⟩
    · simp at hs
    · exact ⟨rfl, rfl, rfl, rfl⟩

/-- Witness for claim C2 at a concrete live clock and engine. -/
theorem teardown_idempotent_witness :
    (Clock.destroy ⟨some ⟨1, 0⟩⟩).2 = 1 ∧
    Clock.destroy (Clock.destroy ⟨some ⟨1, 0⟩⟩).1 =
      ((Clock.destroy ⟨some ⟨1, 0⟩⟩).1, 0) ∧
    (SqueezeEngine.close ⟨some 7⟩).2 = 1 ∧
    SqueezeEngine.close (SqueezeEngine.close ⟨some 7⟩).1 =
      ((SqueezeEngine.close ⟨some 7⟩).1, 0) :=
  teardown_idempotent ⟨some ⟨1, 0⟩⟩ ⟨some 7⟩ rfl rfl

/-- Claim C6: clock creation with `resolution_beats ≤ 0` or `latency_ms < 0`
fails at creation time by raising `ValueError` (no silent defaulting); for
valid arguments creation succeeds with a live handle whose `resolution` and
`latency_ms` properties report the configured values. -/
theorem clock_create_validates (resolution latencyMs : ℚ) :
    ((resolution ≤ 0 ∨ latencyMs < 0) →
      Clock.init resolution latencyMs = .error .valueError) ∧
    (0 < resolution → 0 ≤ latencyMs →
      ∃ c : Clock, Clock.init resolution latencyMs = .ok c ∧
        c.ptr.isSome = true ∧
        Clock.resolutionRead c = (resolution, true) ∧
        Clock.latencyRead c = (latencyMs, true)) := by
  constructor
  · intro h
    simp [Clock.init, sq_clock_create, if_pos h]
  · intro hr hl
    have hcond : ¬ (resolution ≤ 0 ∨ latencyMs < 0) := by
      push_neg
      exact ⟨hr, hl⟩
    refine ⟨⟨some ⟨resolution, latencyMs⟩⟩, ?_, rfl, rfl, rfl⟩
    simp [Clock.init, sq_clock_create, if_neg hcond]

/-- Witness for claim C6 at concrete valid and invalid configurations. -/
theorem clock_create_validates_witness :
    Clock.init 0 5 = .error .valueError ∧
    ∃ c : Clock, Clock.init 1 0 = .ok c ∧
      c.ptr.isSome = true ∧
      Clock.resolutionRead c = (1, true) ∧
      Clock.latencyRead c = (0, true) :=
  ⟨(clock_create_validates 0 5).1 (Or.inl le_rfl),
   (clock_create_validates 1 0).2 (by norm_num) le_rfl⟩

/-- Claim C7: for every `Clock` on which `destroy()` has been called, reading
the `resolution` and `latency_ms` properties afterwards returns the benign
default 0.0 without raising and without calling into the native library. -/
theorem clock_reads_after_destroy (c : Clock) :
    Clock.resolutionRead (Clock.destroy c).1 = (0, false) ∧
    Clock.latencyRead (Clock.destroy c).1 = (0, false) := by
  rcases c with ⟨_ | h⟩ <;>
    simp [Clock.destroy, Clock.resolutionRead, Clock.latencyRead]

/-! ## Performance monitor threshold (`perf.py`; native monitor per spec 4.5) -/

/-- Modelled from the spec: the performance monitor's configuration state; the
native monitor is absent from the repository (spec section 4.5). -/
structure PerfState where
  xrunThreshold : ℚ
deriving DecidableEq, Repr

/-- Modelled from the spec: `xrun_threshold` defaults to 1.0 (spec section
4.5). -/
def initPerfState : PerfState := { xrunThreshold := 1 }

/-- Modelled from the spec: `sq_perf_set_xrun_threshold` — values outside
`[0.1, 2.0]` are silently clamped, not rejected (spec section 4.5). -/
def sq_perf_set_xrun_threshold (st : PerfState) (factor : ℚ) : PerfState :=
  { st with xrunThreshold := max (1/10) (min 2 factor) }

/-- Modelled from the spec: `sq_perf_get_xrun_threshold` reads the stored
threshold. -/
def sq_perf_get_xrun_threshold (st : PerfState) : ℚ := st.xrunThreshold

/-- Claim C5: for every value written to `xrun_threshold`, the effective
stored threshold is the written value clamped to `[0.1, 2.0]`; writing 0.01
yields an effective value ≥ 0.1, writing 10.0 yields ≤ 2.0, in-range values
are stored as-is, and the default before any write is 1.0. -/
theorem xrun_threshold_clamped (st : PerfState) (v : ℚ) :
    sq_perf_get_xrun_threshold (sq_perf_set_xrun_threshold st v)
      = max (1/10) (min 2 v) ∧
    (1/10 : ℚ) ≤ sq_perf_get_xrun_threshold (sq_perf_set_xrun_threshold st v) ∧
    sq_perf_get_xrun_threshold (sq_perf_set_xrun_threshold st v) ≤ 2 ∧
    ((1/10 : ℚ) ≤ v → v ≤ 2 →
      sq_perf_get_xrun_threshold (sq_perf_set_xrun_threshold st v) = v) ∧
    (1/10 : ℚ) ≤ sq_perf_get_xrun_threshold
      (sq_perf_set_xrun_threshold st (1/100)) ∧
    sq_perf_get_xrun_threshold (sq_perf_set_xrun_threshold st 10) ≤ 2 ∧
    sq_perf_get_xrun_threshold initPerfState = 1 := by
  refine ⟨rfl, le_max_left _ _, max_le (by norm_num) (min_le_left _ _), ?_,
    le_max_left _ _, max_le (by norm_num) (min_le_left _ _), rfl⟩
  intro h1 h2
  show max (1/10) (min 2 v) = v
  rw [min_eq_right h2, max_eq_right h1]

/-- Witness for claim C5: an in-range write is stored exactly. -/
theorem xrun_threshold_clamped_witness :
    sq_perf_get_xrun_threshold (sq_perf_set_xrun_threshold initPerfState (1/2))
      = 1/2 :=
  (xrun_threshold_clamped initPerfState (1/2)).2.2.2.1 (by norm_num) (by norm_num)

/-! ## Transport.seek (`transport.py` lines 57-64) -/

/-- The native seek a `Transport.seek` call dispatches to. -/
inductive SeekCall
  | beats (b : ℚ)
  | samples (n : Int)
deriving DecidableEq, Repr

/-- `Transport.seek` (`transport.py` lines 57-64): raises `ValueError` unless
exactly one of `beats=` and `samples=` is supplied, otherwise performs the
corresponding native seek. -/
def Transport.seek (beats : Option ℚ) (samples : Option Int) :
    Except PyExc SeekCall :=
  if beats.isNone = samples.isNone then .error .valueError
  else
    match beats, samples with
    | some b, _ => .ok (.beats b)
    | none, some n => .ok (.samples n)
    | none, none => .error .valueError

/-- Claim C8: `Transport.seek` raises `ValueError` exactly when both of
`beats` and `samples` are supplied or neither is; when exactly one is
supplied it performs the corresponding beat-based or sample-based native seek
and returns without raising. -/
theorem transport_seek_spec (ob : Option ℚ) (os : Option Int) :
    (∀ b n, ob = some b → os = some n →
      Transport.seek ob os = .error .valueError) ∧
    (ob = none → os = none → Transport.seek ob os = .error .valueError) ∧
    (∀ b, ob = some b → os = none → Transport.seek ob os = .ok (.beats b)) ∧
    (∀ n, ob = none → os = some n → Transport.seek ob os = .ok (.samples n)) ∧
    ((∃ r, Transport.seek ob os = .ok r) ↔ ob.isNone ≠ os.isNone) := by
  rcases ob with _ | b <;> rcases os with _ | n <;>
    simp [Transport.seek]

/-- Witness for claim C8: a beats-only call seeks by beats. -/
theorem transport_seek_spec_witness :
    Transport.seek (some (3/2)) none = .ok (.beats (3/2)) :=
  (transport_seek_spec (some (3/2)) none).2.2.1 (3/2) rfl rfl

/-! ## Chain.__getitem__ (`chain.py` lines 53-64) -/

/-- `Chain.__getitem__` (`chain.py` lines 53-64): normalizes a negative index
against the chain size, raises `IndexError` when the normalized index is out
of range — and then, even for an in-range index, raises `IndexError` again
because no per-index proc handle query exists in the FFI yet.  The success
type is the chain position a returned `Processor` would occupy; no value of
it is ever produced. -/
def Chain.getitem (size : Nat) (index : Int) : Except (PyExc × String) Nat :=
  let i := if index < 0 then index + size else index
  if i < 0 ∨ (size : Int) ≤ i then
    .error (.indexError, "chain index out of range")
  else
    .error (.indexError, "requires per-index proc handle query, not yet in FFI")

/-- Claim C3 (code bug): the docstring promises that an in-range index returns
the `Processor` at that position and that `IndexError` is raised only when the
index is out of range, but the body unconditionally raises `IndexError` even
for the in-range index 0 of a chain of size 1. -/
theorem chain_getitem_always_raises :
    Chain.getitem 1 0 =
      .error (.indexError,
        "requires per-index proc handle query, not yet in FFI") := rfl

/-! ## Node.__rshift__ (`node.py` lines 120-153) -/

/-- `Node.__rshift__` (`node.py` lines 120-153): auto-matches the first audio
output of the left node to the first audio input of the right node; if no
such audio pair exists, tries the first MIDI output and first MIDI input;
otherwise raises `SqueezeError` without attempting any connection.  The
result carries the pair of port names handed to `Engine.connect`. -/
def Node.rshift (srcPorts dstPorts : List Port) :
    Except PyExc (String × String) :=
  match srcPorts.filter (fun p => p.isAudio && p.isOutput),
        dstPorts.filter (fun p => p.isAudio && p.isInput) with
  | o :: _, i :: _ => .ok (o.name, i.name)
  | _, _ =>
    match srcPorts.filter (fun p => p.isMidi && p.isOutput),
          dstPorts.filter (fun p => p.isMidi && p.isInput) with
    | o :: _, i :: _ => .ok (o.name, i.name)
    | _, _ => .error .squeezeError

/-- Claim C9: `a >> b` connects the first audio output port of `a` to the
first audio input port of `b` when both exist; otherwise the first MIDI
output of `a` to the first MIDI input of `b` when both exist; and when
neither compatible pair exists it raises `SqueezeError` without attempting
any connection. -/
theorem node_rshift_spec (src dst : List Port) :
    (∀ o oRest i iRest,
        src.filter (fun p => p.isAudio && p.isOutput) = o :: oRest →
        dst.filter (fun p => p.isAudio && p.isInput) = i :: iRest →
        Node.rshift src dst = .ok (o.name, i.name)) ∧
    (∀ o oRest i iRest,
        (src.filter (fun p => p.isAudio && p.isOutput) = [] ∨
         dst.filter (fun p => p.isAudio && p.isInput) = []) →
        src.filter (fun p => p.isMidi && p.isOutput) = o :: oRest →
        dst.filter (fun p => p.isMidi && p.isInput) = i :: iRest →
        Node.rshift src dst = .ok (o.name, i.name)) ∧
    ((src.filter (fun p => p.isAudio && p.isOutput) = [] ∨
      dst.filter (fun p => p.isAudio && p.isInput) = []) →
     (src.filter (fun p => p.isMidi && p.isOutput) = [] ∨
      dst.filter (fun p => p.isMidi && p.isInput) = []) →
     Node.rshift src dst = .error .squeezeError) := by
  refine ⟨?_, ?_, ?_⟩
  · intro o oRest i iRest h1 h2
    simp [Node.rshift, h1, h2]
  · intro o oRest i iRest ha h1 h2
    rcases ha with ha | ha
    · simp [Node.rshift, ha, h1, h2]
    · cases hao : src.filter (fun p => p.isAudio && p.isOutput) <;>
        simp [Node.rshift, hao, ha, h1, h2]
  · intro ha hm
    rcases ha with ha | ha <;> rcases hm with hm | hm
    · simp [Node.rshift, ha, hm]
    · cases hmo : src.filter (fun p => p.isMidi && p.isOutput) <;>
        simp [Node.rshift, ha, hmo, hm]
    · cases hao : src.filter (fun p => p.isAudio && p.isOutput) <;>
        simp [Node.rshift, hao, ha, hm]
    · cases hao : src.filter (fun p => p.isAudio && p.isOutput) <;>
        cases hmo : src.filter (fun p => p.isMidi && p.isOutput) <;>
          simp [Node.rshift, hao, ha, hmo, hm]

/-- A stereo audio output port, for witnesses. -/
def audioOutPort : Port := ⟨"out", .output, .audio, 2⟩

/-- A stereo audio input port, for witnesses. -/
def audioInPort : Port := ⟨"in", .input, .audio, 2⟩

/-- Witness for claim C9: two audio-capable nodes connect on their first
audio ports. -/
theorem node_rshift_spec_witness :
    Node.rshift [audioOutPort] [audioInPort] = .ok ("out", "in") :=
  (node_rshift_spec [audioOutPort] [audioInPort]).1
    audioOutPort [] audioInPort [] rfl rfl

/-! ## Send level caching (`send.py`, `source.py`) -/

/-- Modelled from the spec: the native send table, mapping
(owner handle, send id) to the send's level in dB (spec section 3, "Send");
the native mixer is absent from the repository. -/
structure SendTable where
  levels : List ((Nat × Nat) × ℚ)
deriving DecidableEq, Repr

/-- Modelled from the spec: `sq_set_send_level` updates the stored level of an
existing send owned by a source; unknown ids are ignored. -/
def sq_set_send_level (t : SendTable) (owner sendId : Nat) (level : ℚ) :
    SendTable :=
  ⟨t.levels.map (fun e => if e.1 = (owner, sendId) then (e.1, level) else e)⟩

/-- Modelled from the spec: `sq_bus_set_send_level`, the bus-owned variant. -/
def sq_bus_set_send_level (t : SendTable) (owner sendId : Nat) (level : ℚ) :
    SendTable :=
  ⟨t.levels.map (fun e => if e.1 = (owner, sendId) then (e.1, level) else e)⟩

/-- The level the engine currently stores for a send. -/
def sendLevelInEngine (t : SendTable) (owner sendId : Nat) : Option ℚ :=
  (t.levels.find? (fun e => decide (e.1 = (owner, sendId)))).map Prod.snd

/-- The Python `Send` object's state (`send.py` lines 19-27): owner handle,
send id, owner type string, and the cached level and tap point. -/
structure SendObj where
  owner : Nat
  sendId : Nat
  ownerType : String
  levelCache : ℚ
  tapCache : String
deriving DecidableEq, Repr

/-- `Send.__init__` (`send.py` lines 19-27): caches the level given at
construction. -/
def SendObj.make (owner sendId : Nat) (ownerType : String) (level : ℚ)
    (tap : String) : SendObj :=
  ⟨owner, sendId, ownerType, level, tap⟩

/-- `Send.level` getter (`send.py` lines 34-37): returns the cached value;
the engine state argument is unused, mirroring the Python body, which never
reads back from the engine. -/
def SendObj.levelGet (_t : SendTable) (s : SendObj) : ℚ := s.levelCache

/-- `Send.level` setter (`send.py` lines 39-47): writes through to the engine
(source or bus variant by owner type) and refreshes the cache. -/
def SendObj.setLevel (t : SendTable) (s : SendObj) (v : ℚ) :
    SendTable × SendObj :=
  if s.ownerType = "source" then
    (sq_set_send_level t s.owner s.sendId v, { s with levelCache := v })
  else
    (sq_bus_set_send_level t s.owner s.sendId v, { s with levelCache := v })

/-- `Source.set_send_level` (`source.py` lines 97-99): writes the engine's
send level directly, bypassing any `Send` object. -/
def Source.set_send_level (t : SendTable) (owner sendId : Nat) (level : ℚ) :
    SendTable :=
  sq_set_send_level t owner sendId level

theorem find_after_update (l : List ((Nat × Nat) × ℚ)) (k : Nat × Nat)
    (v w : ℚ)
    (h : (l.find? (fun e => decide (e.1 = k))).map Prod.snd = some w) :
    ((l.map (fun e => if e.1 = k then (e.1, v) else e)).find?
        (fun e => decide (e.1 = k))).map Prod.snd = some v := by
  induction l with
  | nil => simp at h
  | cons e t ih =>
    by_cases hk : e.1 = k
    · have hd : (if e.1 = k then (e.1, v) else e) = (e.1, v) := if_pos hk
      simp only [List.map_cons, hd]
      rw [List.find?_cons_of_pos _ (by simpa using hk)]
      simp
    · have hd : (if e.1 = k then (e.1, v) else e) = e := if_neg hk
      rw [List.find?_cons_of_neg _ (by simpa using hk)] at h
      simp only [List.map_cons, hd]
      rw [List.find?_cons_of_neg _ (by simpa using hk)]
      exact ih h

/-- Claim C10: a `Send` object's `level` property returns the value cached in
the Python object (the construction-time level or the last value written
through that same object's setter), never a value read back from the engine;
after the same send's level is changed through `Source.set_send_level`, the
`Send` object still reports the stale cached value while the engine holds the
new one. -/
theorem send_level_cached (t : SendTable) (s : SendObj) (v w : ℚ)
    (hw : sendLevelInEngine t s.owner s.sendId = some w) :
    SendObj.levelGet t s = s.levelCache ∧
    (∀ t₂ : SendTable, SendObj.levelGet t₂ s = SendObj.levelGet t s) ∧
    (∀ (o i : Nat) (ty tap : String) (L : ℚ),
        SendObj.levelGet t (SendObj.make o i ty L tap) = L) ∧
    ((SendObj.setLevel t s v).2).levelCache = v ∧
    (∀ t₂ : SendTable, SendObj.levelGet t₂ (SendObj.setLevel t s v).2 = v) ∧
    sendLevelInEngine (Source.set_send_level t s.owner s.sendId v)
      s.owner s.sendId = some v ∧
    SendObj.levelGet (Source.set_send_level t s.owner s.sendId v) s
      = s.levelCache := by
  refine ⟨rfl, fun t₂ => rfl, fun o i ty tap L => rfl, ?_, ?_, ?_, rfl⟩
  · by_cases hty : s.ownerType = "source" <;>
      simp [SendObj.setLevel, hty]
  · intro t₂
    by_cases hty : s.ownerType = "source" <;>
      simp [SendObj.setLevel, SendObj.levelGet, hty]
  · exact find_after_update t.levels (s.owner, s.sendId) v w hw

/-- Witness for claim C10 at a concrete engine table and send object: the
engine now stores -6 dB, the object still reports 0 dB. -/
theorem send_level_cached_witness :
    sendLevelInEngine
      (Source.set_send_level ⟨[((1, 5), 0)]⟩ 1 5 (-6)) 1 5 = some (-6) ∧
    SendObj.levelGet (Source.set_send_level ⟨[((1, 5), 0)]⟩ 1 5 (-6))
      (SendObj.make 1 5 "source" 0 "post") = 0 := by
  have h := send_level_cached ⟨[((1, 5), 0)]⟩
    (SendObj.make 1 5 "source" 0 "post") (-6) 0 (by rfl)
  exact ⟨h.2.2.2.2.2.1, h.2.2.2.2.2.2⟩

/-! ## Event scheduler (spec sections 3 and 4.3; native core absent from the
repo; Python entry points in `source.py` lines 116-135 and `node.py` lines
155-173) -/

/-- ScheduledEvent payloads (spec section 3). -/
inductive EventPayload
  | noteOn (channel note : Nat) (velocity : ℚ)
  | noteOff (channel note : Nat)
  | controlChange (channel ccNum ccVal : Nat)
  | paramChange (param : String) (value : ℚ)
deriving DecidableEq, Repr

/-- A queued scheduled event, tagged with a unique id assigned on
acceptance. -/
structure SchedEvent where
  id : Nat
  node : Nat
  beat : ℚ
  payload : EventPayload
deriving DecidableEq, Repr

/-- Modelled from the spec: the EventScheduler's state — the set of live node
handles, the current playhead in beats, the queue of accepted events, and the
next event id (spec sections 3 and 4.3). The native implementation is absent
from the repository. -/
structure SchedState where
  nodes : List Nat
  playhead : ℚ
  queue : List SchedEvent
  nextEventId : Nat
deriving DecidableEq, Repr

/-- Modelled from the spec: `scheduleNoteOn/Off/CC/ParamChange(node, beat, …)
-> bool` — returns false if the node does not exist or if the event's
beat-time already lies behind the current playhead (late events are dropped,
not retroactively applied); otherwise the event is enqueued (spec section
4.3). -/
def scheduleEvent (st : SchedState) (node : Nat) (beat : ℚ)
    (p : EventPayload) : SchedState × Bool :=
  if node ∈ st.nodes then
    if beat < st.playhead then (st, false)
    else ({ st with
              queue := st.queue ++ [⟨st.nextEventId, node, beat, p⟩],
              nextEventId := st.nextEventId + 1 },
          true)
  else (st, false)

/-- `Source.note_on` (`source.py` lines 118-123): forwards to
`sq_schedule_note_on`. -/
def Source.note_on (st : SchedState) (handle : Nat) (beat : ℚ)
    (channel note : Nat) (velocity : ℚ) : SchedState × Bool :=
  scheduleEvent st handle beat (.noteOn channel note velocity)

/-- `Source.note_off` (`source.py` lines 125-129). -/
def Source.note_off (st : SchedState) (handle : Nat) (beat : ℚ)
    (channel note : Nat) : SchedState × Bool :=
  scheduleEvent st handle beat (.noteOff channel note)

/-- `Node.note_on` (`node.py` lines 157-160): forwards through the low-level
`schedule_note_on`. -/
def Node.note_on (st : SchedState) (nodeId : Nat) (beat : ℚ)
    (channel note : Nat) (velocity : ℚ) : SchedState × Bool :=
  scheduleEvent st nodeId beat (.noteOn channel note velocity)

/-- `Node.cc` (`node.py` lines 166-169). -/
def Node.cc (st : SchedState) (nodeId : Nat) (beat : ℚ)
    (channel ccNum ccVal : Nat) : SchedState × Bool :=
  scheduleEvent st nodeId beat (.controlChange channel ccNum ccVal)

/-- `Node.automate` (`node.py` lines 171-173). -/
def Node.automate (st : SchedState) (nodeId : Nat) (beat : ℚ)
    (param : String) (value : ℚ) : SchedState × Bool :=
  scheduleEvent st nodeId beat (.paramChange param value)

/-- Modelled from the spec: one render block advancing the playhead — events
whose beat-time falls before the new position are popped from the queue and
applied; each applied event is discarded (spec sections 2 and 4.3). -/
def advanceTo (st : SchedState) (newPos : ℚ) : List SchedEvent × SchedState :=
  (st.queue.filter (fun e => decide (e.beat < newPos)),
   { st with
       queue := st.queue.filter (fun e => decide (¬ e.beat < newPos)),
       playhead := newPos })

/-- An external action on the scheduler: a scheduling call or a render
block. -/
inductive SchedOp
  | schedule (node : Nat) (beat : ℚ) (payload : EventPayload)
  | render (newPos : ℚ)
deriving DecidableEq, Repr

/-- One action's effect: the successor state and the events applied by it. -/
def SchedState.step (st : SchedState) : SchedOp → SchedState × List SchedEvent
  | .schedule n b p => ((scheduleEvent st n b p).1, [])
  | .render pos => ((advanceTo st pos).2, (advanceTo st pos).1)

/-- Run a sequence of actions, collecting each step's applied events. -/
def SchedState.run (st : SchedState) :
    List SchedOp → SchedState × List (List SchedEvent)
  | [] => (st, [])
  | op :: ops =>
    ((st.step op).1.run ops |>.1, (st.step op).2 :: ((st.step op).1.run ops).2)

/-- The ids of all events applied over a run, in application order. -/
def appliedIds (st : SchedState) (ops : List SchedOp) : List Nat :=
  ((st.run ops).2.flatten).map SchedEvent.id

/-- Scheduler well-formedness: queued ids are below the id counter and
pairwise distinct. -/
def SchedWF (st : SchedState) : Prop :=
  (∀ e ∈ st.queue, e.id < st.nextEventId) ∧
  (st.queue.map SchedEvent.id).Nodup

theorem appliedIds_cons (st : SchedState) (op : SchedOp) (ops : List SchedOp) :
    appliedIds st (op :: ops) =
      ((st.step op).2.map SchedEvent.id) ++ appliedIds (st.step op).1 ops := by
  simp [appliedIds, SchedState.run]

theorem scheduleEvent_cases (st : SchedState) (n : Nat) (b : ℚ)
    (p : EventPayload) :
    (scheduleEvent st n b p).1 = st ∨
    ((scheduleEvent st n b p).1.queue
        = st.queue ++ [⟨st.nextEventId, n, b, p⟩] ∧
     (scheduleEvent st n b p).1.nextEventId = st.nextEventId + 1) := by
  unfold scheduleEvent
  split
  · split
    · exact Or.inl rfl
    · exact Or.inr ⟨rfl, rfl⟩
  · exact Or.inl rfl

theorem schedWF_schedule {st : SchedState} (h : SchedWF st) (n : Nat) (b : ℚ)
    (p : EventPayload) : SchedWF (scheduleEvent st n b p).1 := by
  rcases scheduleEvent_cases st n b p with heq | ⟨hq, hn⟩
  · rw [heq]; exact h
  · constructor
    · intro e he
      rw [hq] at he
      rw [hn]
      rcases List.mem_append.mp he with he | he
      · exact Nat.lt_succ_of_lt (h.1 e he)
      · rcases List.mem_singleton.mp he with rfl
        exact Nat.lt_succ_self _
    · rw [hq]
      simp only [List.map_append, List.map_cons, List.map_nil]
      rw [List.nodup_append]
      refine ⟨h.2, List.nodup_singleton _, ?_⟩
      intro i hi hi'
      rcases List.mem_singleton.mp hi' with rfl
      obtain ⟨e, he, hid⟩ := List.mem_map.mp hi
      exact absurd (hid ▸ h.1 e he) (lt_irrefl _)

theorem schedWF_advance {st : SchedState} (h : SchedWF st) (pos : ℚ) :
    SchedWF (advanceTo st pos).2 := by
  constructor
  · intro e he
    exact h.1 e (List.mem_of_mem_filter he)
  · exact h.2.sublist ((List.filter_sublist _).map SchedEvent.id)

theorem schedWF_step {st : SchedState} (h : SchedWF st) (op : SchedOp) :
    SchedWF (st.step op).1 := by
  cases op with
  | schedule n b p => exact schedWF_schedule h n b p
  | render pos => exact schedWF_advance h pos

/-- Every id applied during a run either was already queued at the start or
was assigned at or after the starting id counter. -/
theorem run_applied_mem (ops : List SchedOp) :
    ∀ (st : SchedState), ∀ i ∈ appliedIds st ops,
      i ∈ st.queue.map SchedEvent.id ∨ st.nextEventId ≤ i := by
  induction ops with
  | nil =>
    intro st i hi
    simp [appliedIds, SchedState.run] at hi
  | cons op ops ih =>
    intro st i hi
    rw [appliedIds_cons] at hi
    rcases List.mem_append.mp hi with hi | hi
    · cases op with
      | schedule n b p => simp [SchedState.step] at hi
      | render pos =>
        obtain ⟨e, he, rfl⟩ := List.mem_map.mp hi
        exact Or.inl (List.mem_map.mpr
          ⟨e, List.mem_of_mem_filter he, rfl⟩)
    · have := ih (st.step op).1 i hi
      cases op with
      | schedule n b p =>
        rcases scheduleEvent_cases st n b p with heq | ⟨hq, hn⟩
        · rw [SchedState.step, heq] at this
          exact this
        · rw [SchedState.step] at this
          rcases this with hmem | hle
          · rw [hq] at hmem
            simp only [List.map_append, List.map_cons, List.map_nil] at hmem
            rcases List.mem_append.mp hmem with hmem | hmem
            · exact Or.inl hmem
            · rcases List.mem_singleton.mp hmem with rfl
              exact Or.inr le_rfl
          · rw [hn] at hle
            exact Or.inr (le_of_lt (Nat.lt_of_succ_le hle))
      | render pos =>
        rcases this with hmem | hle
        · obtain ⟨e, he, rfl⟩ := List.mem_map.mp hmem
          exact Or.inl (List.mem_map.mpr
            ⟨e, List.mem_of_mem_filter he, rfl⟩)
        · exact Or.inr hle

/-- Over any run from a well-formed scheduler state, no event id is ever
applied twice. -/
theorem run_applied_nodup (ops : List SchedOp) :
    ∀ (st : SchedState), SchedWF st → (appliedIds st ops).Nodup := by
  induction ops with
  | nil => intro st _; simp [appliedIds, SchedState.run]
  | cons op ops ih =>
    intro st hwf
    rw [appliedIds_cons]
    cases op with
    | schedule n b p =>
      simp only [SchedState.step, List.map_nil, List.nil_append]
      exact ih _ (schedWF_step hwf (.schedule n b p))
    | render pos =>
      rw [List.nodup_append]
      refine ⟨?_, ih _ (schedWF_step hwf (.render pos)), ?_⟩
      · exact hwf.2.sublist ((List.filter_sublist _).map SchedEvent.id)
      · intro i hdue htail
        obtain ⟨e, hedue, rfl⟩ := List.mem_map.mp hdue
        have heq : e ∈ st.queue := List.mem_of_mem_filter hedue
        rcases run_applied_mem ops _ e.id htail with hmem | hle
        · obtain ⟨e2, he2, hid⟩ := List.mem_map.mp hmem
          have he2q : e2 ∈ st.queue := List.mem_of_mem_filter he2
          have : e2 = e := List.inj_on_of_nodup_map hwf.2 he2q heq hid
          subst this
          have h1 : decide (e2.beat < pos) = true :=
            (List.mem_filter.mp hedue).2
          have h2 : decide (¬ e2.beat < pos) = true :=
            (List.mem_filter.mp he2).2
          simp only [decide_eq_true_eq] at h1 h2
          exact h2 h1
        · exact absurd (hwf.1 e heq) (not_lt.mpr hle)

/-- Claim C4: every event-scheduling call (`note_on`, `note_off`, `cc`,
`automate`) returns false when the target node does not exist or when the
event's beat-time lies behind the current playhead, leaving the scheduler
unchanged (late events are silently dropped, never retroactively applied);
a call succeeds exactly when the node exists and the beat is not late; and
over any run every accepted event is applied at most once. -/
theorem schedule_at_most_once (st : SchedState) (hwf : SchedWF st) :
    (∀ (n : Nat) (b : ℚ) (p : EventPayload), n ∉ st.nodes →
      scheduleEvent st n b p = (st, false)) ∧
    (∀ (n : Nat) (b : ℚ) (p : EventPayload), b < st.playhead →
      scheduleEvent st n b p = (st, false)) ∧
    (∀ (n : Nat) (b : ℚ) (p : EventPayload),
      (scheduleEvent st n b p).2 = true ↔ (n ∈ st.nodes ∧ ¬ b < st.playhead)) ∧
    (∀ (h : Nat) (b : ℚ) (c k : Nat) (vel : ℚ),
      Source.note_on st h b c k vel = scheduleEvent st h b (.noteOn c k vel)) ∧
    (∀ (h : Nat) (b : ℚ) (c k : Nat),
      Source.note_off st h b c k = scheduleEvent st h b (.noteOff c k)) ∧
    (∀ (h : Nat) (b : ℚ) (c num val : Nat),
      Node.cc st h b c num val
        = scheduleEvent st h b (.controlChange c num val)) ∧
    (∀ (h : Nat) (b : ℚ) (pname : String) (val : ℚ),
      Node.automate st h b pname val
        = scheduleEvent st h b (.paramChange pname val)) ∧
    (∀ ops : List SchedOp, (appliedIds st ops).Nodup) := by
  refine ⟨?_, ?_, ?_, fun _ _ _ _ _ => rfl, fun _ _ _ _ => rfl,
    fun _ _ _ _ _ => rfl, fun _ _ _ _ => rfl,
    fun ops => run_applied_nodup ops st hwf⟩
  · intro n b p hn
    simp [scheduleEvent, hn]
  · intro n b p hb
    by_cases hn : n ∈ st.nodes <;> simp [scheduleEvent, hn, hb]
  · intro n b p
    by_cases hn : n ∈ st.nodes
    · by_cases hb : b < st.playhead <;> simp [scheduleEvent, hn, hb]
    · simp [scheduleEvent, hn]

/-- Witness for claim C4: a concrete accept-then-render run applies the one
accepted event exactly once. -/
theorem schedule_at_most_once_witness :
    (appliedIds ⟨[1], 0, [], 0⟩
      [.schedule 1 2 (.noteOn 1 60 (4/5)), .render 4]).Nodup :=
  (schedule_at_most_once ⟨[1], 0, [], 0⟩
      ⟨by simp, by simp⟩).2.2.2.2.2.2.2
    [.schedule 1 2 (.noteOn 1 60 (4/5)), .render 4]

end Squeeze
